import Mathlib

/-!
# Verification of the feature-engineering / risk-classification pipeline

Shallow embedding of `scripts/02_feature_engineering.py`.

The script computes pandas series of technical indicators over an asset's
daily OHLCV history, flags risk events (daily return ≤ −2%), and inserts the
resulting rows into two tables with `ON CONFLICT (metal_id, date) DO NOTHING`.

Numeric cells of a pandas frame are IEEE doubles; a cell is either NaN
("absent"), ±infinity, or a finite number.  The embedding models a cell as
`Val`: NaN, a signed infinity, or an exact rational (rounding plays no role in
any property verified here, so finite doubles are carried as `ℚ`).  The
arithmetic on `Val` follows the numpy/pandas semantics of the operations the
script uses: NaN propagates through every operation, comparisons with NaN are
false, `x / 0` is a signed infinity for `x ≠ 0` and NaN for `x = 0`.
-/

set_option autoImplicit false

namespace MetalRisk

/-- One cell of a pandas numeric series: NaN, a signed infinity
(`inf true` = +∞, `inf false` = −∞), or a finite value. -/
inductive Val : Type where
  | nan : Val
  | inf : Bool → Val
  | num : ℚ → Val
deriving DecidableEq, Inhabited

namespace Val

/-- Is the cell NaN (pandas: "null"/absent)? -/
def isNan : Val → Bool
  | .nan => true
  | _ => false

/-- numpy addition. -/
def add : Val → Val → Val
  | .nan, _ => .nan
  | _, .nan => .nan
  | .inf s, .inf t => if s = t then .inf s else .nan
  | .inf s, .num _ => .inf s
  | .num _, .inf t => .inf t
  | .num a, .num b => .num (a + b)

/-- numpy negation. -/
def neg : Val → Val
  | .nan => .nan
  | .inf s => .inf (!s)
  | .num a => .num (-a)

/-- numpy subtraction. -/
def sub : Val → Val → Val
  | .nan, _ => .nan
  | _, .nan => .nan
  | .inf s, .inf t => if s = t then .nan else .inf s
  | .inf s, .num _ => .inf s
  | .num _, .inf t => .inf (!t)
  | .num a, .num b => .num (a - b)

/-- numpy multiplication. -/
def mul : Val → Val → Val
  | .nan, _ => .nan
  | _, .nan => .nan
  | .inf s, .inf t => .inf (s = t)
  | .inf s, .num a => if a = 0 then .nan else .inf (s = decide (0 < a))
  | .num a, .inf s => if a = 0 then .nan else .inf (s = decide (0 < a))
  | .num a, .num b => .num (a * b)

/-- numpy division: division of a nonzero number by zero yields a signed
infinity, `0 / 0` yields NaN (the model carries no signed zero, so the zero
denominator counts as positive). -/
def div : Val → Val → Val
  | .nan, _ => .nan
  | _, .nan => .nan
  | .inf _, .inf _ => .nan
  | .inf s, .num b => if b < 0 then .inf (!s) else .inf s
  | .num _, .inf _ => .num 0
  | .num a, .num b =>
      if b = 0 then (if a = 0 then .nan else .inf (decide (0 < a))) else .num (a / b)

/-- pandas elementwise `≤` (false whenever either side is NaN). -/
def le : Val → Val → Bool
  | .nan, _ => false
  | _, .nan => false
  | .inf s, .inf t => !s || t
  | .inf s, .num _ => !s
  | .num _, .inf t => t
  | .num a, .num b => decide (a ≤ b)

/-- pandas elementwise `v > q` against a scalar (false on NaN). -/
def gtQ : Val → ℚ → Bool
  | .nan, _ => false
  | .inf s, _ => s
  | .num a, q => decide (q < a)

/-- pandas elementwise `v < q` against a scalar (false on NaN). -/
def ltQ : Val → ℚ → Bool
  | .nan, _ => false
  | .inf s, _ => !s
  | .num a, q => decide (a < q)

/-- `np.log` at the precision any claim consumes: the logarithm of a positive
number is some finite number (no claim consumes `log_return`'s numeric value,
only whether the cell is absent, so the finite payload is carried as the
argument itself), `log 0 = −∞`, and the logarithm of a negative number or of
NaN is NaN. -/
def log : Val → Val
  | .nan => .nan
  | .inf s => if s then .inf true else .nan
  | .num q => if 0 < q then .num q else if q = 0 then .inf false else .nan

theorem isNan_eq_false_iff (v : Val) : v.isNan = false ↔ v ≠ .nan := by
  cases v <;> simp [isNan]

end Val

/-- `series.shift(1)`: NaN at index 0, the previous cell afterwards. -/
def shift1 (f : ℕ → Val) (i : ℕ) : Val :=
  if i = 0 then .nan else f (i - 1)

/-- `series.pct_change()` (modern pandas default, no forward fill):
`series / series.shift(1) - 1`. -/
def pct_change (f : ℕ → Val) (i : ℕ) : Val :=
  ((f i).div (shift1 f i)).sub (.num 1)

/-- `series.diff()`: NaN at index 0, difference with the previous cell
afterwards. -/
def diff (f : ℕ → Val) (i : ℕ) : Val :=
  if i = 0 then .nan else (f i).sub (f (i - 1))

/-- `series.rolling(w).mean()` with the default `min_periods = w`: NaN until a
full window of non-NaN cells is available, otherwise the arithmetic mean of
the window ending at `i`. -/
def rolling_mean (f : ℕ → Val) (w i : ℕ) : Val :=
  if i + 1 < w then .nan
  else
    let vs := (List.range w).map fun j => f (i + 1 - w + j)
    if vs.any Val.isNan then .nan
    else (vs.foldl Val.add (.num 0)).div (.num (w : ℚ))

/-- `series.rolling(w).var()` (sample variance, `ddof = 1`), windowing exactly
as `rolling_mean`. -/
def rolling_var (f : ℕ → Val) (w i : ℕ) : Val :=
  if i + 1 < w then .nan
  else
    let vs := (List.range w).map fun j => f (i + 1 - w + j)
    if vs.any Val.isNan then .nan
    else
      let m := (vs.foldl Val.add (.num 0)).div (.num (w : ℚ))
      ((vs.map fun x => (x.sub m).mul (x.sub m)).foldl Val.add (.num 0)).div
        (.num ((w : ℚ) - 1))

/-- `series.rolling(w).std()` (sample standard deviation, `ddof = 1`).  Its
exact value is the square root of the sample variance and is irrational in
general; no claim consumes the numeric value of a cell derived from it, only
whether that cell is absent, zero, positive or infinite, all of which the
square root preserves on nonnegative input, so the embedding carries the
variance itself as the finite payload. -/
def rolling_std (f : ℕ → Val) (w i : ℕ) : Val :=
  rolling_var f w i

/-- `series.ewm(span=k, adjust=False).mean()` over a finite series of
non-null cells: the recursive exponential smoothing with
`α = 2 / (span + 1)`, seeded by the first observation. -/
def ewm_mean (span : ℕ) (xs : List ℚ) : List ℚ :=
  match xs with
  | [] => []
  | x :: t =>
      t.scanl (fun prev y =>
        (2 / ((span : ℚ) + 1)) * y + (1 - 2 / ((span : ℚ) + 1)) * prev) x

/-! ## Data model

`load_price_data` returns one frame per metal with columns
`metal_id, date, open, high, low, close, volume`, ordered by date.  A frame is
embedded as a list of `PricePoint`; dates are ordinals (`ℕ`); `volume` is the
only nullable numeric column the script consumes as nullable. -/

/-- One row of the `price_data` frame loaded by `load_price_data`. -/
structure PricePoint : Type where
  metal_id : ℕ
  date : ℕ
  openPx : ℚ
  high : ℚ
  low : ℚ
  close : ℚ
  volume : Option ℚ
deriving DecidableEq

instance : Inhabited PricePoint :=
  ⟨{ metal_id := 0, date := 0, openPx := 0, high := 0, low := 0, close := 0,
     volume := none }⟩

/-- A loaded per-asset frame: one `PricePoint` per trading day, ascending
by date. -/
abbrev PriceSeries := List PricePoint

/-- The close at positional index `i`. -/
def closeAt (df : PriceSeries) (i : ℕ) : ℚ :=
  (df.getD i default).close

/-- The `close` column as a series of cells (never null). -/
def closeCol (df : PriceSeries) (i : ℕ) : Val :=
  .num (closeAt df i)

/-- The `volume` column as a series of cells (null where absent). -/
def volCol (df : PriceSeries) (i : ℕ) : Val :=
  match (df.getD i default).volume with
  | none => .nan
  | some q => .num q

/-! ## Technical indicators (`calculate_rsi`, `calculate_macd`,
`calculate_bollinger`) -/

/-- `delta = series.diff()` inside `calculate_rsi`. -/
def rsi_delta (c : ℕ → Val) (i : ℕ) : Val :=
  diff c i

/-- `gain = delta.where(delta > 0, 0)`: the delta where it is positive, `0`
otherwise (also `0` where delta is NaN, since the comparison is false there). -/
def rsi_gain (c : ℕ → Val) (i : ℕ) : Val :=
  if (rsi_delta c i).gtQ 0 then rsi_delta c i else .num 0

/-- `loss = -(delta.where(delta < 0, 0))`. -/
def rsi_loss (c : ℕ → Val) (i : ℕ) : Val :=
  Val.neg (if (rsi_delta c i).ltQ 0 then rsi_delta c i else .num 0)

/-- `gain.rolling(period).mean()`. -/
def avg_gain (c : ℕ → Val) (period i : ℕ) : Val :=
  rolling_mean (rsi_gain c) period i

/-- `loss.rolling(period).mean()`. -/
def avg_loss (c : ℕ → Val) (period i : ℕ) : Val :=
  rolling_mean (rsi_loss c) period i

/-- `rs = gain / loss` inside `calculate_rsi`. -/
def rsi_rs (c : ℕ → Val) (period i : ℕ) : Val :=
  (avg_gain c period i).div (avg_loss c period i)

/-- `calculate_rsi(series, period)`: `100 - (100 / (1 + rs))`. -/
def calculate_rsi (c : ℕ → Val) (period : ℕ) (i : ℕ) : Val :=
  (Val.num 100).sub ((Val.num 100).div ((Val.num 1).add (rsi_rs c period i)))

/-- `macd = ema_fast - ema_slow` from `calculate_macd` (the close column is
never null, so the whole computation stays in `ℚ`). -/
def macd_line (fast slow : ℕ) (xs : List ℚ) : List ℚ :=
  List.zipWith (fun a b => a - b) (ewm_mean fast xs) (ewm_mean slow xs)

/-- `macd_signal = macd.ewm(span=signal, adjust=False).mean()`. -/
def macd_signal_line (fast slow signal : ℕ) (xs : List ℚ) : List ℚ :=
  ewm_mean signal (macd_line fast slow xs)

/-- `macd_hist = macd - macd_signal`. -/
def macd_hist_line (fast slow signal : ℕ) (xs : List ℚ) : List ℚ :=
  List.zipWith (fun a b => a - b) (macd_line fast slow xs)
    (macd_signal_line fast slow signal xs)

/-- `mid = series.rolling(window).mean()` from `calculate_bollinger`. -/
def bollinger_mid (c : ℕ → Val) (window i : ℕ) : Val :=
  rolling_mean c window i

/-- `upper = mid + num_std * std`. -/
def bollinger_upper (c : ℕ → Val) (window : ℕ) (num_std : ℚ) (i : ℕ) : Val :=
  (bollinger_mid c window i).add ((Val.num num_std).mul (rolling_std c window i))

/-- `lower = mid - num_std * std`. -/
def bollinger_lower (c : ℕ → Val) (window : ℕ) (num_std : ℚ) (i : ℕ) : Val :=
  (bollinger_mid c window i).sub ((Val.num num_std).mul (rolling_std c window i))

/-- `width = (upper - lower) / mid`. -/
def bollinger_width (c : ℕ → Val) (window : ℕ) (num_std : ℚ) (i : ℕ) : Val :=
  ((bollinger_upper c window num_std i).sub (bollinger_lower c window num_std i)).div
    (bollinger_mid c window i)

/-! ## `build_features` -/

/-- `df["daily_return"] = df["close"].pct_change()`. -/
def daily_return (df : PriceSeries) (i : ℕ) : Val :=
  pct_change (closeCol df) i

/-- `df["log_return"] = np.log(df["close"] / df["close"].shift(1))`. -/
def log_return (df : PriceSeries) (i : ℕ) : Val :=
  Val.log ((closeCol df i).div (shift1 (closeCol df) i))

/-- `df["volume_change"] = df["volume"].pct_change()`. -/
def volume_change (df : PriceSeries) (i : ℕ) : Val :=
  pct_change (volCol df) i

/-- The row at positional index `i` of the enriched frame returned by
`build_features` (one field per column the script adds, plus the key columns
`metal_id` and `date` carried through from the input frame). -/
structure FeatureRow : Type where
  metal_id : ℕ
  date : ℕ
  daily_return : Val
  log_return : Val
  sma_5 : Val
  sma_10 : Val
  sma_20 : Val
  sma_50 : Val
  ema_12 : Val
  ema_26 : Val
  bollinger_upper : Val
  bollinger_middle : Val
  bollinger_lower : Val
  bollinger_width : Val
  rsi_14 : Val
  macd : Val
  macd_signal : Val
  macd_histogram : Val
  high_low_range : Val
  high_low_ratio : Val
  volume_change : Val
  volume_sma_20 : Val
deriving DecidableEq, Inhabited

/-- The enriched row of `build_features` at index `i`: each field is the
corresponding pandas column evaluated at `i`. -/
def featureRowAt (df : PriceSeries) (i : ℕ) : FeatureRow :=
  let p := df.getD i default
  { metal_id := p.metal_id
    date := p.date
    daily_return := daily_return df i
    log_return := log_return df i
    sma_5 := rolling_mean (closeCol df) 5 i
    sma_10 := rolling_mean (closeCol df) 10 i
    sma_20 := rolling_mean (closeCol df) 20 i
    sma_50 := rolling_mean (closeCol df) 50 i
    ema_12 := .num ((ewm_mean 12 (df.map (·.close))).getD i 0)
    ema_26 := .num ((ewm_mean 26 (df.map (·.close))).getD i 0)
    bollinger_upper := bollinger_upper (closeCol df) 20 2 i
    bollinger_middle := bollinger_mid (closeCol df) 20 i
    bollinger_lower := bollinger_lower (closeCol df) 20 2 i
    bollinger_width := bollinger_width (closeCol df) 20 2 i
    rsi_14 := calculate_rsi (closeCol df) 14 i
    macd := .num ((macd_line 12 26 (df.map (·.close))).getD i 0)
    macd_signal := .num ((macd_signal_line 12 26 9 (df.map (·.close))).getD i 0)
    macd_histogram := .num ((macd_hist_line 12 26 9 (df.map (·.close))).getD i 0)
    high_low_range := .num (p.high - p.low)
    high_low_ratio := if 0 < p.low then .num (p.high / p.low) else .nan
    volume_change := volume_change df i
    volume_sma_20 := rolling_mean (volCol df) 20 i }

/-- `build_features(df)`: the enriched frame, one row per input row. -/
def build_features (df : PriceSeries) : List FeatureRow :=
  (List.range df.length).map (featureRowAt df)

/-- Does the row survive `df[cols].dropna()` in `upsert_technical_features`
(no selected column NaN)?  The key columns `metal_id` and `date` are integers
and never null. -/
def FeatureRow.complete (r : FeatureRow) : Bool :=
  !r.daily_return.isNan && !r.log_return.isNan &&
  !r.sma_5.isNan && !r.sma_10.isNan && !r.sma_20.isNan && !r.sma_50.isNan &&
  !r.ema_12.isNan && !r.ema_26.isNan &&
  !r.bollinger_upper.isNan && !r.bollinger_middle.isNan &&
  !r.bollinger_lower.isNan && !r.bollinger_width.isNan &&
  !r.rsi_14.isNan &&
  !r.macd.isNan && !r.macd_signal.isNan && !r.macd_histogram.isNan &&
  !r.high_low_range.isNan && !r.high_low_ratio.isNan &&
  !r.volume_change.isNan && !r.volume_sma_20.isNan

/-- `feat = df[cols].dropna()` from `upsert_technical_features`: the rows of
the enriched frame with every selected column non-null. -/
def feature_batch (df : PriceSeries) : List FeatureRow :=
  (build_features df).filter (·.complete)

/-! ## `build_risk_events` -/

/-- One row of the frame built by `build_risk_events` (columns
`metal_id, date, close, daily_return, previous_close, current_close,
price_change_pct, is_risk_event`). -/
structure RiskRow : Type where
  metal_id : ℕ
  date : ℕ
  close : Val
  daily_return : Val
  previous_close : Val
  current_close : Val
  price_change_pct : Val
  is_risk_event : Bool
deriving DecidableEq, Inhabited

/-- The row of `build_risk_events` at positional index `i` before the
`dropna`: `previous_close = close.shift(1)`, `current_close = close`,
`price_change_pct = daily_return * 100`,
`is_risk_event = (daily_return <= threshold)` (false where NaN). -/
def riskRowAt (df : PriceSeries) (threshold : ℚ) (i : ℕ) : RiskRow :=
  let p := df.getD i default
  { metal_id := p.metal_id
    date := p.date
    close := closeCol df i
    daily_return := daily_return df i
    previous_close := shift1 (closeCol df) i
    current_close := closeCol df i
    price_change_pct := (daily_return df i).mul (.num 100)
    is_risk_event := (daily_return df i).le (.num threshold) }

/-- `build_risk_events(df, threshold=-0.02)`: one candidate row per input row,
then `dropna(subset=["previous_close", "current_close", "daily_return"])`
(the first row, having no previous close, is always dropped). -/
def build_risk_events (df : PriceSeries) (threshold : ℚ := -(2/100)) :
    List RiskRow :=
  ((List.range df.length).map (riskRowAt df threshold)).filter fun r =>
    !r.previous_close.isNan && !r.current_close.isNan && !r.daily_return.isNan

/-! ## The store and the idempotent writers

The store tables `technical_features` and `risk_events` each enforce
uniqueness on `(metal_id, date)`; each row is inserted with
`INSERT ... ON CONFLICT (metal_id, date) DO NOTHING`, i.e. appended exactly
when no stored row carries its key. -/

/-- The `technical_features` table: its rows, in insertion order. -/
abbrev FeatStore := List FeatureRow

/-- The `risk_events` table: its rows, in insertion order. -/
abbrev RiskStore := List RiskRow

/-- Does the table hold a row with key `k`? -/
def hasKey {α : Type} (key : α → ℕ × ℕ) (s : List α) (k : ℕ × ℕ) : Bool :=
  s.any fun x => key x = k

/-- One `INSERT ... ON CONFLICT (metal_id, date) DO NOTHING`: append the row
unless its key is already present, in which case the store is untouched. -/
def insertIfAbsent {α : Type} (key : α → ℕ × ℕ) (s : List α) (r : α) :
    List α :=
  if hasKey key s (key r) then s else s ++ [r]

/-- The uniqueness key of a feature row. -/
def featKey (r : FeatureRow) : ℕ × ℕ :=
  (r.metal_id, r.date)

/-- The uniqueness key of a risk row. -/
def riskKey (r : RiskRow) : ℕ × ℕ :=
  (r.metal_id, r.date)

/-- `upsert_technical_features(engine, df)`: drop incomplete rows, insert each
remaining row with conflict suppression (one `engine.begin()` transaction),
and return `len(feat)` — the number of rows attempted, not inserted. -/
def upsert_technical_features (s : FeatStore) (df : PriceSeries) :
    FeatStore × ℕ :=
  let feat := feature_batch df
  (feat.foldl (insertIfAbsent featKey) s, feat.length)

/-- `upsert_risk_events(engine, df)`: build the risk rows with the default
threshold, insert each with conflict suppression (its own `engine.begin()`
transaction), and return `len(risk)`. -/
def upsert_risk_events (s : RiskStore) (df : PriceSeries) : RiskStore × ℕ :=
  let risk := build_risk_events df
  (risk.foldl (insertIfAbsent riskKey) s, risk.length)

/-- The two store writes `main` performs for one asset, with their transaction
boundaries as in the source: `upsert_technical_features` runs and commits its
own `engine.begin()` block first, then `upsert_risk_events` runs in a second,
separate `engine.begin()` block.  `riskWriteFails` injects a store failure
into the second block: that block alone rolls back, the feature transaction
having already committed. -/
def process_asset_writes (fs : FeatStore) (rs : RiskStore) (df : PriceSeries)
    (riskWriteFails : Bool) : FeatStore × RiskStore :=
  let fs1 := (upsert_technical_features fs df).1
  if riskWriteFails then (fs1, rs) else (fs1, (upsert_risk_events rs df).1)

/-! ## The pipeline driver (`main`) -/

/-- The observable state of one run of `main`: both tables, the two running
totals the summary prints, and the assets skipped with a "No price data
found" warning. -/
structure RunResult : Type where
  feats : FeatStore
  risks : RiskStore
  total_feat : ℕ
  total_risk : ℕ
  skipped : List ℕ
deriving DecidableEq, Inhabited

/-- The per-asset loop of `main`: for each metal id, load its series (the
Series Loader collaborator, `load_price_data`, yields `none` when the asset
has no price data); on a load failure print a warning and continue to the
next asset, otherwise enrich the frame and run both writers, accumulating the
returned counts. -/
def process_metals (load : ℕ → Option PriceSeries) :
    List ℕ → RunResult → RunResult
  | [], acc => acc
  | m :: rest, acc =>
      match load m with
      | none => process_metals load rest { acc with skipped := acc.skipped ++ [m] }
      | some df =>
          if df.isEmpty then
            process_metals load rest { acc with skipped := acc.skipped ++ [m] }
          else
            let u1 := upsert_technical_features acc.feats df
            let u2 := upsert_risk_events acc.risks df
            process_metals load rest
              { feats := u1.1
                risks := u2.1
                total_feat := acc.total_feat + u1.2
                total_risk := acc.total_risk + u2.2
                skipped := acc.skipped }

/-- `main`, from the asset enumeration on: run the per-asset loop from empty
state; the run always terminates and the returned totals are the summary it
prints. -/
def main_run (load : ℕ → Option PriceSeries) (metals : List ℕ) : RunResult :=
  process_metals load metals
    { feats := [], risks := [], total_feat := 0, total_risk := 0, skipped := [] }

/-- The per-asset atomicity property under scrutiny: every pair of store
writes for one asset either leaves both tables untouched or commits both
batches in full. -/
def per_asset_atomic : Prop :=
  ∀ (fs : FeatStore) (rs : RiskStore) (df : PriceSeries) (b : Bool),
    process_asset_writes fs rs df b = (fs, rs) ∨
    process_asset_writes fs rs df b =
      ((upsert_technical_features fs df).1, (upsert_risk_events rs df).1)

/-! ## Concrete data used to instantiate the theorems -/

/-- A synthetic trading day: closes alternate 2, 1, volume constant. -/
def demoPoint (i : ℕ) : PricePoint :=
  { metal_id := 1, date := i, openPx := 1, high := 2, low := 1,
    close := if i % 2 = 0 then 2 else 1, volume := some 1 }

/-- Fifty synthetic trading days — just enough history for `sma_50`, so the
feature batch holds exactly the row at index 49. -/
def demoSeries : PriceSeries :=
  (List.range 50).map demoPoint

/-- The one fully-computable feature row of `demoSeries`. -/
def demoRow : FeatureRow :=
  featureRowAt demoSeries 49

/-- The worked example from the specification: closes 100, 97, 99. -/
def specSeries : PriceSeries :=
  [ { metal_id := 2, date := 0, openPx := 100, high := 100, low := 100,
      close := 100, volume := none },
    { metal_id := 2, date := 1, openPx := 97, high := 97, low := 97,
      close := 97, volume := none },
    { metal_id := 2, date := 2, openPx := 99, high := 99, low := 99,
      close := 99, volume := none } ]

/-- Fifteen days at a constant close: every RSI gain and loss is zero. -/
def constSeries : PriceSeries :=
  (List.range 15).map fun i =>
    { metal_id := 1, date := i, openPx := 5, high := 5, low := 5, close := 5,
      volume := some 1 }

/-- Fifteen days of strictly increasing closes: no RSI loss ever. -/
def incSeries : PriceSeries :=
  (List.range 15).map fun i =>
    { metal_id := 1, date := i, openPx := 1, high := 1, low := 1,
      close := ((i : ℚ) + 1), volume := some 1 }

/-- Two days whose volumes are 0 then 5: `volume.pct_change()` divides by
zero at index 1. -/
def zeroVolSeries : PriceSeries :=
  [ { metal_id := 1, date := 0, openPx := 1, high := 1, low := 1, close := 1,
      volume := some 0 },
    { metal_id := 1, date := 1, openPx := 1, high := 1, low := 1, close := 1,
      volume := some 5 } ]

/-- Two days whose first volume is null. -/
def nullVolSeries : PriceSeries :=
  [ { metal_id := 1, date := 0, openPx := 1, high := 1, low := 1, close := 1,
      volume := none },
    { metal_id := 1, date := 1, openPx := 1, high := 1, low := 1, close := 1,
      volume := some 5 } ]

/-- Twenty days of closes alternating 1 and −1: the Bollinger middle band is
0 at index 19 while the rolling deviation is positive. -/
def zeroMidSeries : PriceSeries :=
  (List.range 20).map fun i =>
    { metal_id := 1, date := i, openPx := 1, high := 1, low := 1,
      close := if i % 2 = 0 then 1 else -1, volume := some 1 }

/-- A stored feature row with key (3, 9). -/
def storedFeatRow : FeatureRow :=
  { (default : FeatureRow) with metal_id := 3, date := 9 }

/-- An incoming feature row with the same key (3, 9) but different data. -/
def incomingFeatRow : FeatureRow :=
  { (default : FeatureRow) with metal_id := 3, date := 9, daily_return := .num 1 }

/-- A stored risk row with key (3, 9). -/
def storedRiskRow : RiskRow :=
  { (default : RiskRow) with metal_id := 3, date := 9 }

/-- An incoming risk row with the same key (3, 9) but different data. -/
def incomingRiskRow : RiskRow :=
  { (default : RiskRow) with metal_id := 3, date := 9, is_risk_event := true }

/-- A `technical_features` table already holding key (3, 9). -/
def demoFeatStore : FeatStore :=
  [storedFeatRow]

/-- A `risk_events` table already holding key (3, 9). -/
def demoRiskStore : RiskStore :=
  [storedRiskRow]

/-! ## Lemmas about `scanl` and the exponential moving average -/

theorem scanl_getD_zero (f : ℚ → ℚ → ℚ) (b : ℚ) (l : List ℚ) :
    (l.scanl f b).getD 0 0 = b := by
  cases l <;> rfl

theorem scanl_getD_succ (f : ℚ → ℚ → ℚ) (b : ℚ) (l : List ℚ) (i : ℕ)
    (h : i + 1 < l.length + 1) :
    (l.scanl f b).getD (i + 1) 0 = f ((l.scanl f b).getD i 0) (l.getD i 0) := by
  induction l generalizing b i with
  | nil => simp at h
  | cons a t ih =>
    rw [List.scanl_cons, List.singleton_append]
    cases i with
    | zero =>
      simp [scanl_getD_zero]
    | succ j =>
      have hj : j + 1 < t.length + 1 := by
        simpa [Nat.succ_lt_succ_iff] using h
      simp only [List.getD_cons_succ]
      exact ih (f b a) j hj

theorem ewm_mean_length (span : ℕ) (xs : List ℚ) :
    (ewm_mean span xs).length = xs.length := by
  cases xs with
  | nil => rfl
  | cons x t => simp [ewm_mean, List.length_scanl]

/-- C4: for every series and span, the emitted exponential moving average is
defined at every index (same length as the input), is seeded by the first
value, and satisfies the exact recurrence
`ema[i+1] = α·x[i+1] + (1−α)·ema[i]` with `α = 2/(span+1)`; the MACD signal
line is exactly this smoothing with span 9 applied to the macd values. -/
theorem ema_recurrence (xs : List ℚ) (k i : ℕ) (h : i + 1 < xs.length) :
    (ewm_mean k xs).length = xs.length ∧
    (ewm_mean k xs).getD 0 0 = xs.getD 0 0 ∧
    (ewm_mean k xs).getD (i + 1) 0 =
      2 / ((k : ℚ) + 1) * xs.getD (i + 1) 0 +
        (1 - 2 / ((k : ℚ) + 1)) * (ewm_mean k xs).getD i 0 ∧
    macd_signal_line 12 26 9 xs = ewm_mean 9 (macd_line 12 26 xs) := by
  refine ⟨ewm_mean_length k xs, ?_, ?_, rfl⟩
  · cases xs with
    | nil => rfl
    | cons x t => simp [ewm_mean, scanl_getD_zero]
  · cases xs with
    | nil => simp at h
    | cons x t =>
      have ht : i + 1 < t.length + 1 := by simpa using h
      simp only [ewm_mean]
      rw [scanl_getD_succ _ x t i ht]
      simp [List.getD_cons_succ]

/-- Witness for C4 at the two-point series `[1, 3]` with span 12. -/
theorem ema_recurrence_witness :
    (0 + 1 < ([1, 3] : List ℚ).length) ∧
    ((ewm_mean 12 [1, 3]).length = ([1, 3] : List ℚ).length ∧
      (ewm_mean 12 [1, 3]).getD 0 0 = ([1, 3] : List ℚ).getD 0 0 ∧
      (ewm_mean 12 [1, 3]).getD (0 + 1) 0 =
        2 / (((12 : ℕ) : ℚ) + 1) * ([1, 3] : List ℚ).getD (0 + 1) 0 +
          (1 - 2 / (((12 : ℕ) : ℚ) + 1)) * (ewm_mean 12 [1, 3]).getD 0 0 ∧
      macd_signal_line 12 26 9 [1, 3] = ewm_mean 9 (macd_line 12 26 [1, 3])) :=
  ⟨by decide, ema_recurrence [1, 3] 12 0 (by decide)⟩

/-! ## Lemmas about `build_risk_events` -/

theorem closeAt_ne_zero (df : PriceSeries) (h : ∀ p ∈ df, 0 < p.close)
    (j : ℕ) (hj : j < df.length) : closeAt df j ≠ 0 := by
  have hmem : df.getD j default ∈ df := by
    rw [List.getD_eq_getElem df default hj]
    exact List.getElem_mem hj
  exact ne_of_gt (h _ hmem)

theorem daily_return_of_pos (df : PriceSeries) (i : ℕ) (hi : i ≠ 0)
    (h : closeAt df (i - 1) ≠ 0) :
    daily_return df i = .num (closeAt df i / closeAt df (i - 1) - 1) := by
  simp [daily_return, pct_change, shift1, hi, closeCol, Val.div, h, Val.sub]

/-- With every close positive, the `dropna` of `build_risk_events` keeps
exactly the rows from index 1 on. -/
theorem build_risk_events_of_pos (df : PriceSeries) (t : ℚ)
    (h : ∀ p ∈ df, 0 < p.close) :
    build_risk_events df t =
      (List.range (df.length - 1)).map fun j => riskRowAt df t (j + 1) := by
  cases hn : df.length with
  | zero => simp [build_risk_events, hn]
  | succ m =>
    unfold build_risk_events
    rw [hn, List.filter_map, List.range_succ_eq_map, List.filter_cons]
    have h0 : (!(riskRowAt df t 0).previous_close.isNan &&
        !(riskRowAt df t 0).current_close.isNan &&
        !(riskRowAt df t 0).daily_return.isNan) = false := by
      simp [riskRowAt, shift1, Val.isNan]
    simp only [Function.comp_apply, h0, if_false]
    rw [List.filter_map, List.filter_eq_self.mpr]
    · simp [List.map_map, Function.comp, Nat.succ_eq_add_one, Nat.succ_sub_one]
    · intro j hjm
      have hj : j + 1 < df.length := by
        rw [hn]
        simpa using List.mem_range.mp hjm
      have hdr := daily_return_of_pos df (j + 1) (by omega)
        (by simpa using closeAt_ne_zero df h j (by omega))
      simp [riskRowAt, shift1, Val.isNan, closeCol, hdr]

/-- C1: with every close positive, the risk classifier emits exactly one row
per point from index 1 onward and none for the first point; row `j` carries
the date of point `j+1`, `previous_close = close[j]`,
`current_close = close[j+1]`, `price_change_pct = daily_return × 100`, and
`is_risk_event` exactly when the daily return is ≤ −0.02 (non-strict). -/
theorem risk_classifier_correct (df : PriceSeries)
    (h : ∀ p ∈ df, 0 < p.close) :
    (build_risk_events df).length = df.length - 1 ∧
    ∀ j, j + 1 < df.length →
      ((build_risk_events df).getD j default).date = (df.getD (j + 1) default).date ∧
      ((build_risk_events df).getD j default).previous_close = .num (closeAt df j) ∧
      ((build_risk_events df).getD j default).current_close = .num (closeAt df (j + 1)) ∧
      ((build_risk_events df).getD j default).daily_return =
        .num (closeAt df (j + 1) / closeAt df j - 1) ∧
      ((build_risk_events df).getD j default).price_change_pct =
        .num ((closeAt df (j + 1) / closeAt df j - 1) * 100) ∧
      (((build_risk_events df).getD j default).is_risk_event = true ↔
        closeAt df (j + 1) / closeAt df j - 1 ≤ -(2/100)) := by
  have hb := build_risk_events_of_pos df (-(2/100)) h
  constructor
  · rw [hb]; simp
  · intro j hj
    have hjm : j < df.length - 1 := by omega
    have hrow : (build_risk_events df).getD j default =
        riskRowAt df (-(2/100)) (j + 1) := by
      rw [hb, List.getD_eq_getElem _ _ (by simpa using hjm)]
      rw [List.getElem_map, List.getElem_range]
    have hdr : daily_return df (j + 1) =
        .num (closeAt df (j + 1) / closeAt df j - 1) :=
      daily_return_of_pos df (j + 1) (by omega)
        (by simpa using closeAt_ne_zero df h j (by omega))
    rw [hrow]
    refine ⟨rfl, ?_, rfl, hdr, ?_, ?_⟩
    · simp [riskRowAt, shift1, closeCol]
    · simp [riskRowAt, hdr, Val.mul]
    · simp [riskRowAt, hdr, Val.le]

/-- Witness for C1 at the specification's example series of closes
100, 97, 99. -/
theorem risk_classifier_correct_witness :
    (∀ p ∈ specSeries, 0 < p.close) ∧
    ((build_risk_events specSeries).length = specSeries.length - 1 ∧
      ∀ j, j + 1 < specSeries.length →
        ((build_risk_events specSeries).getD j default).date =
          (specSeries.getD (j + 1) default).date ∧
        ((build_risk_events specSeries).getD j default).previous_close =
          .num (closeAt specSeries j) ∧
        ((build_risk_events specSeries).getD j default).current_close =
          .num (closeAt specSeries (j + 1)) ∧
        ((build_risk_events specSeries).getD j default).daily_return =
          .num (closeAt specSeries (j + 1) / closeAt specSeries j - 1) ∧
        ((build_risk_events specSeries).getD j default).price_change_pct =
          .num ((closeAt specSeries (j + 1) / closeAt specSeries j - 1) * 100) ∧
        (((build_risk_events specSeries).getD j default).is_risk_event = true ↔
          closeAt specSeries (j + 1) / closeAt specSeries j - 1 ≤ -(2/100))) :=
  ⟨by decide, risk_classifier_correct specSeries (by decide)⟩

/-! ## Lemmas about rolling means and the RSI -/

theorem foldl_add_num_nonneg (l : List Val)
    (h : ∀ x ∈ l, ∃ g, x = Val.num g ∧ 0 ≤ g) :
    ∀ a : ℚ, 0 ≤ a → ∃ s, l.foldl Val.add (.num a) = Val.num s ∧ 0 ≤ s := by
  induction l with
  | nil => intro a ha; exact ⟨a, rfl, ha⟩
  | cons x t ih =>
    intro a ha
    obtain ⟨g, hx, hg⟩ := h x (by simp)
    have ht := ih (fun y hy => h y (by simp [hy])) (a + g) (by linarith)
    simpa [List.foldl_cons, hx, Val.add] using ht

theorem rolling_mean_nonneg (f : ℕ → Val) (w i : ℕ) (hw : 0 < w)
    (h : ∀ j, ∃ g, f j = Val.num g ∧ 0 ≤ g) :
    rolling_mean f w i = Val.nan ∨
      ∃ m, rolling_mean f w i = Val.num m ∧ 0 ≤ m := by
  by_cases hi : i + 1 < w
  · left; simp [rolling_mean, hi]
  · right
    have hall : ∀ x ∈ (List.range w).map (fun j => f (i + 1 - w + j)),
        ∃ g, x = Val.num g ∧ 0 ≤ g := by
      intro x hx
      obtain ⟨j, _, rfl⟩ := List.mem_map.mp hx
      exact h _
    have hnan : ((List.range w).map fun j => f (i + 1 - w + j)).any Val.isNan
        = false := by
      rw [List.any_eq_false]
      intro x hx
      obtain ⟨g, hg, _⟩ := hall x hx
      simp [hg, Val.isNan]
    obtain ⟨s, hs, hs0⟩ := foldl_add_num_nonneg _ hall 0 le_rfl
    have hwq : ((w : ℚ)) ≠ 0 := Nat.cast_ne_zero.mpr (by omega)
    refine ⟨s / w, ?_, by positivity⟩
    simp [rolling_mean, hi, hnan, hs, Val.div, hwq]

theorem rolling_mean_const_zero (f : ℕ → Val) (w i : ℕ) (hw : 0 < w)
    (hiw : w ≤ i + 1) (h : ∀ j, i + 1 - w ≤ j → j ≤ i → f j = Val.num 0) :
    rolling_mean f w i = Val.num 0 := by
  have hrep : ((List.range w).map fun j => f (i + 1 - w + j)) =
      List.replicate w (Val.num 0) := by
    apply List.eq_replicate_iff.mpr
    refine ⟨by simp, ?_⟩
    intro b hb
    obtain ⟨j, hj, rfl⟩ := List.mem_map.mp hb
    have hjw := List.mem_range.mp hj
    exact h _ (by omega) (by omega)
  have hfold : ∀ (n : ℕ) (a : ℚ),
      (List.replicate n (Val.num 0)).foldl Val.add (Val.num a) = Val.num a := by
    intro n
    induction n with
    | zero => intro a; rfl
    | succ v ihv => intro a; simpa [List.replicate_succ, Val.add] using ihv a
  have hnan : (List.replicate w (Val.num 0)).any Val.isNan = false := by
    rw [List.any_eq_false]
    intro x hx
    rw [List.eq_of_mem_replicate hx]
    simp [Val.isNan]
  have hwq : ((w : ℚ)) ≠ 0 := Nat.cast_ne_zero.mpr (by omega)
  have hi : ¬(i + 1 < w) := by omega
  simp [rolling_mean, hi, hrep, hnan, hfold, Val.div, hwq]

theorem rsi_delta_cases (c : ℕ → Val) (hc : ∀ j, ∃ q, c j = Val.num q)
    (i : ℕ) : rsi_delta c i = Val.nan ∨ ∃ d, rsi_delta c i = Val.num d := by
  cases i with
  | zero => left; simp [rsi_delta, diff]
  | succ n =>
    right
    obtain ⟨q1, hq1⟩ := hc (n + 1)
    obtain ⟨q2, hq2⟩ := hc n
    exact ⟨q1 - q2, by simp [rsi_delta, diff, hq1, hq2, Val.sub]⟩

theorem rsi_gain_num (c : ℕ → Val) (hc : ∀ j, ∃ q, c j = Val.num q) (i : ℕ) :
    ∃ g, rsi_gain c i = Val.num g ∧ 0 ≤ g := by
  rcases rsi_delta_cases c hc i with hd | ⟨d, hd⟩
  · exact ⟨0, by simp [rsi_gain, hd, Val.gtQ], le_rfl⟩
  · by_cases hpos : 0 < d
    · exact ⟨d, by simp [rsi_gain, hd, Val.gtQ, hpos], le_of_lt hpos⟩
    · exact ⟨0, by simp [rsi_gain, hd, Val.gtQ, hpos], le_rfl⟩

theorem rsi_loss_num (c : ℕ → Val) (hc : ∀ j, ∃ q, c j = Val.num q) (i : ℕ) :
    ∃ g, rsi_loss c i = Val.num g ∧ 0 ≤ g := by
  rcases rsi_delta_cases c hc i with hd | ⟨d, hd⟩
  · exact ⟨0, by simp [rsi_loss, hd, Val.ltQ, Val.neg], le_rfl⟩
  · by_cases hneg : d < 0
    · exact ⟨-d, by simp [rsi_loss, hd, Val.ltQ, hneg, Val.neg], by linarith⟩
    · exact ⟨0, by simp [rsi_loss, hd, Val.ltQ, hneg, Val.neg], le_rfl⟩

/-- C6: wherever `rsi_14` is a defined number it lies in [0, 100]; and
whenever the rolling `avg_loss` is 0 while `avg_gain` is positive, `rsi_14`
is exactly 100 rather than a numeric error. -/
theorem rsi_bounds (df : PriceSeries) (i : ℕ) :
    (∀ q, calculate_rsi (closeCol df) 14 i = Val.num q → 0 ≤ q ∧ q ≤ 100) ∧
    (∀ g, avg_loss (closeCol df) 14 i = Val.num 0 →
      avg_gain (closeCol df) 14 i = Val.num g → 0 < g →
      calculate_rsi (closeCol df) 14 i = Val.num 100) := by
  have hc : ∀ j, ∃ q, closeCol df j = Val.num q := fun j => ⟨_, rfl⟩
  constructor
  · intro q hq
    rcases rolling_mean_nonneg (rsi_gain (closeCol df)) 14 i (by norm_num)
        (rsi_gain_num _ hc) with hg | ⟨a, hg, ha⟩
    · simp [calculate_rsi, rsi_rs, avg_gain, avg_loss, hg, Val.div,
        Val.add, Val.sub] at hq
    · rcases rolling_mean_nonneg (rsi_loss (closeCol df)) 14 i (by norm_num)
          (rsi_loss_num _ hc) with hl | ⟨b, hl, hb⟩
      · simp [calculate_rsi, rsi_rs, avg_gain, avg_loss, hg, hl, Val.div,
          Val.add, Val.sub] at hq
      · by_cases hb0 : b = 0
        · by_cases ha0 : a = 0
          · simp [calculate_rsi, rsi_rs, avg_gain, avg_loss, hg, hl, hb0, ha0,
              Val.div, Val.add, Val.sub] at hq
          · have hapos : 0 < a := lt_of_le_of_ne ha (Ne.symm ha0)
            have h100 : q = 100 := by
              simp [calculate_rsi, rsi_rs, avg_gain, avg_loss, hg, hl, hb0,
                ha0, hapos, Val.div, Val.add, Val.sub] at hq
              exact hq.symm
            subst h100; norm_num
        · have hbpos : 0 < b := lt_of_le_of_ne hb (Ne.symm hb0)
          have h1r : (0 : ℚ) < 1 + a / b := by positivity
          have hne : (1 : ℚ) + a / b ≠ 0 := ne_of_gt h1r
          have hval : q = 100 - 100 / (1 + a / b) := by
            simp [calculate_rsi, rsi_rs, avg_gain, avg_loss, hg, hl, hb0, hne,
              Val.div, Val.add, Val.sub] at hq
            exact hq.symm
          subst hval
          have hd1 : 100 / (1 + a / b) ≤ 100 := by
            have hab : 0 ≤ a / b := div_nonneg ha (le_of_lt hbpos)
            exact div_le_self (by norm_num) (by linarith)
          have hd2 : 0 < 100 / (1 + a / b) := by positivity
          constructor <;> linarith
  · intro g hl hg hgpos
    have hgne : g ≠ 0 := ne_of_gt hgpos
    simp [calculate_rsi, rsi_rs, hl, hg, hgne, hgpos, Val.div, Val.add,
      Val.sub]

/-- Witness for C6 at fifteen strictly increasing closes: every loss is 0,
the average gain is 13/14, and the RSI saturates at exactly 100. -/
theorem rsi_bounds_witness :
    (avg_loss (closeCol incSeries) 14 13 = Val.num 0 ∧
      avg_gain (closeCol incSeries) 14 13 = Val.num (13/14) ∧
      (0 : ℚ) < 13/14) ∧
    calculate_rsi (closeCol incSeries) 14 13 = Val.num 100 ∧
    ((0 : ℚ) ≤ 100 ∧ (100 : ℚ) ≤ 100) := by
  have ha : avg_loss (closeCol incSeries) 14 13 = Val.num 0 := by
    with_unfolding_all decide
  have hb : avg_gain (closeCol incSeries) 14 13 = Val.num (13/14) := by
    with_unfolding_all decide
  have hp : (0 : ℚ) < 13/14 := by with_unfolding_all decide
  have h2 := (rsi_bounds incSeries 13).2 (13/14) ha hb hp
  exact ⟨⟨ha, hb, hp⟩, h2, (rsi_bounds incSeries 13).1 100 h2⟩

/-- C9: when the closes are constant across an entire active 14-day RSI
window (so both rolling averages are 0), `rsi_14` is NaN rather than 100, and
no row for that date survives the `dropna` into the persisted feature
batch. -/
theorem rsi_constant_window (df : PriceSeries) (i : ℕ) (hi : 13 ≤ i)
    (hn : i < df.length)
    (hdates : df.Pairwise fun a b => a.date < b.date)
    (hconst : ∀ j, j ≤ i → i ≤ j + 14 → closeAt df j = closeAt df i) :
    calculate_rsi (closeCol df) 14 i = Val.nan ∧
    ∀ r ∈ feature_batch df, r.date ≠ (df.getD i default).date := by
  have hdelta : ∀ j, i + 1 - 14 ≤ j → j ≤ i → j ≠ 0 →
      rsi_delta (closeCol df) j = Val.num 0 := by
    intro j h1 h2 hjne
    have he : closeAt df j = closeAt df (j - 1) := by
      rw [hconst j h2 (by omega), hconst (j - 1) (by omega) (by omega)]
    simp [rsi_delta, diff, hjne, closeCol, Val.sub, he]
  have hgain : ∀ j, i + 1 - 14 ≤ j → j ≤ i →
      rsi_gain (closeCol df) j = Val.num 0 := by
    intro j h1 h2
    rcases Nat.eq_zero_or_pos j with hj0 | hjpos
    · subst hj0; simp [rsi_gain, rsi_delta, diff, Val.gtQ]
    · simp [rsi_gain, hdelta j h1 h2 (by omega), Val.gtQ]
  have hloss : ∀ j, i + 1 - 14 ≤ j → j ≤ i →
      rsi_loss (closeCol df) j = Val.num 0 := by
    intro j h1 h2
    rcases Nat.eq_zero_or_pos j with hj0 | hjpos
    · subst hj0; simp [rsi_loss, rsi_delta, diff, Val.ltQ, Val.neg]
    · simp [rsi_loss, hdelta j h1 h2 (by omega), Val.ltQ, Val.neg]
  have hag : avg_gain (closeCol df) 14 i = Val.num 0 :=
    rolling_mean_const_zero _ 14 i (by norm_num) (by omega) hgain
  have hal : avg_loss (closeCol df) 14 i = Val.num 0 :=
    rolling_mean_const_zero _ 14 i (by norm_num) (by omega) hloss
  have hrsi : calculate_rsi (closeCol df) 14 i = Val.nan := by
    simp [calculate_rsi, rsi_rs, hag, hal, Val.div, Val.add, Val.sub]
  refine ⟨hrsi, ?_⟩
  intro r hr heq
  obtain ⟨hmem, hcomp⟩ := List.mem_filter.mp hr
  obtain ⟨j, hj, rfl⟩ := List.mem_map.mp hmem
  have hjn : j < df.length := List.mem_range.mp hj
  have hdate : (df.getD j default).date = (df.getD i default).date := heq
  rw [List.getD_eq_getElem df default hjn, List.getD_eq_getElem df default hn]
    at hdate
  have hji : j = i := by
    by_contra hne
    rcases lt_or_gt_of_ne hne with hlt | hgt
    · have := List.pairwise_iff_getElem.mp hdates j i hjn hn hlt
      omega
    · have := List.pairwise_iff_getElem.mp hdates i j hn hjn hgt
      omega
  subst hji
  have hnan : (featureRowAt df j).rsi_14 = Val.nan := hrsi
  have hfalse : (featureRowAt df j).complete = false := by
    simp [FeatureRow.complete, hnan, Val.isNan]
  rw [hcomp] at hfalse
  exact absurd hfalse (by simp)

/-- Witness for C9 at fifteen days of constant close 5 and index 13. -/
theorem rsi_constant_window_witness :
    (13 ≤ 13 ∧ 13 < constSeries.length ∧
      constSeries.Pairwise (fun a b => a.date < b.date) ∧
      (∀ j, j ≤ 13 → 13 ≤ j + 14 →
        closeAt constSeries j = closeAt constSeries 13)) ∧
    (calculate_rsi (closeCol constSeries) 14 13 = Val.nan ∧
      ∀ r ∈ feature_batch constSeries,
        r.date ≠ (constSeries.getD 13 default).date) := by
  have hn : 13 < constSeries.length := by with_unfolding_all decide
  have hd : constSeries.Pairwise (fun a b => a.date < b.date) := by
    with_unfolding_all decide
  have hcn : ∀ j, j ≤ 13 → 13 ≤ j + 14 →
      closeAt constSeries j = closeAt constSeries 13 := by
    with_unfolding_all decide
  exact ⟨⟨le_rfl, hn, hd, hcn⟩,
    rsi_constant_window constSeries 13 le_rfl hn hd hcn⟩

/-! ## Lemmas about the conflict-suppressing store inserts -/

theorem hasKey_insert {α : Type} (key : α → ℕ × ℕ) (r : α) (s : List α)
    (k : ℕ × ℕ) (h : hasKey key s k = true) :
    hasKey key (insertIfAbsent key s r) k = true := by
  cases hb : hasKey key s (key r)
  · simp only [insertIfAbsent, hb, Bool.false_eq_true, if_false]
    simp only [hasKey, List.any_append] at h ⊢
    simp [h]
  · simpa [insertIfAbsent, hb] using h

theorem hasKey_insert_self {α : Type} (key : α → ℕ × ℕ) (r : α)
    (s : List α) : hasKey key (insertIfAbsent key s r) (key r) = true := by
  cases hb : hasKey key s (key r)
  · simp only [insertIfAbsent, hb, Bool.false_eq_true, if_false]
    simp [hasKey, List.any_append]
  · simp [insertIfAbsent, hb]

theorem insertIfAbsent_noop {α : Type} (key : α → ℕ × ℕ) (r : α)
    (s : List α) (h : hasKey key s (key r) = true) :
    insertIfAbsent key s r = s := by
  simp [insertIfAbsent, h]

theorem hasKey_foldl {α : Type} (key : α → ℕ × ℕ) (l : List α) (s : List α)
    (k : ℕ × ℕ) (h : hasKey key s k = true) :
    hasKey key (l.foldl (insertIfAbsent key) s) k = true := by
  induction l generalizing s with
  | nil => exact h
  | cons a t ih => exact ih _ (hasKey_insert key a s k h)

theorem hasKey_foldl_of_mem {α : Type} (key : α → ℕ × ℕ) (l : List α) :
    ∀ (s : List α) (r : α), r ∈ l →
      hasKey key (l.foldl (insertIfAbsent key) s) (key r) = true := by
  induction l with
  | nil => intro s r hr; cases hr
  | cons a t ih =>
    intro s r hr
    rcases List.mem_cons.mp hr with h | h
    · subst h
      exact hasKey_foldl key t _ _ (hasKey_insert_self key r s)
    · exact ih _ r h

theorem foldl_insert_noop {α : Type} (key : α → ℕ × ℕ) (l : List α)
    (s : List α) (h : ∀ r ∈ l, hasKey key s (key r) = true) :
    l.foldl (insertIfAbsent key) s = s := by
  induction l with
  | nil => rfl
  | cons a t ih =>
    have ha := insertIfAbsent_noop key a s (h a (by simp))
    simp only [List.foldl_cons, ha]
    exact ih fun r hr => h r (by simp [hr])

theorem foldl_insert_idem {α : Type} (key : α → ℕ × ℕ) (l : List α)
    (s : List α) :
    l.foldl (insertIfAbsent key) (l.foldl (insertIfAbsent key) s) =
      l.foldl (insertIfAbsent key) s :=
  foldl_insert_noop key l _ fun r hr => hasKey_foldl_of_mem key l s r hr

/-- C3: both writers are idempotent against the store.  Inserting a row whose
(asset, date) key is already present is a silent no-op; each writer reports
the number of rows attempted (the batch size), independent of the store; and
running either writer a second time over the same frame leaves the store
unchanged while attempting the same count. -/
theorem writers_idempotent (fs : FeatStore) (rs : RiskStore)
    (df : PriceSeries) :
    (∀ r : FeatureRow, hasKey featKey fs (featKey r) = true →
      insertIfAbsent featKey fs r = fs) ∧
    (∀ r : RiskRow, hasKey riskKey rs (riskKey r) = true →
      insertIfAbsent riskKey rs r = rs) ∧
    (upsert_technical_features fs df).2 = (feature_batch df).length ∧
    (upsert_risk_events rs df).2 = (build_risk_events df).length ∧
    (upsert_technical_features (upsert_technical_features fs df).1 df).1 =
      (upsert_technical_features fs df).1 ∧
    (upsert_technical_features (upsert_technical_features fs df).1 df).2 =
      (upsert_technical_features fs df).2 ∧
    (upsert_risk_events (upsert_risk_events rs df).1 df).1 =
      (upsert_risk_events rs df).1 ∧
    (upsert_risk_events (upsert_risk_events rs df).1 df).2 =
      (upsert_risk_events rs df).2 :=
  ⟨fun r h => insertIfAbsent_noop featKey r fs h,
   fun r h => insertIfAbsent_noop riskKey r rs h,
   rfl, rfl,
   foldl_insert_idem featKey (feature_batch df) fs, rfl,
   foldl_insert_idem riskKey (build_risk_events df) rs, rfl⟩

/-- Witness for C3: stores already holding key (3, 9) absorb rows with that
key as no-ops. -/
theorem writers_idempotent_witness :
    (hasKey featKey demoFeatStore (featKey incomingFeatRow) = true ∧
      insertIfAbsent featKey demoFeatStore incomingFeatRow = demoFeatStore) ∧
    (hasKey riskKey demoRiskStore (riskKey incomingRiskRow) = true ∧
      insertIfAbsent riskKey demoRiskStore incomingRiskRow = demoRiskStore) :=
  ⟨⟨by decide,
    (writers_idempotent demoFeatStore demoRiskStore []).1 incomingFeatRow
      (by decide)⟩,
   ⟨by decide,
    (writers_idempotent demoFeatStore demoRiskStore []).2.1 incomingRiskRow
      (by decide)⟩⟩

set_option maxRecDepth 100000 in
set_option maxHeartbeats 1000000 in
/-- C7 counterexample: per-asset atomicity fails on the code.  With both
tables empty, a store failure inside the risk-event transaction for
`demoSeries` leaves the already-committed feature rows in the store and no
risk rows — neither "nothing committed" nor "everything committed". -/
theorem asset_writes_not_atomic : ¬ per_asset_atomic := by
  intro h
  rcases h [] [] demoSeries true with h1 | h1
  · have h2 := congrArg Prod.fst h1
    exact absurd h2 (by with_unfolding_all decide)
  · have h2 := congrArg Prod.snd h1
    exact absurd h2 (by with_unfolding_all decide)

/-- C7 (amended): atomicity is per writer batch, not per asset — the feature
transaction commits first and survives a failure of the separate risk-event
transaction, which alone rolls back; atomicity still never spans multiple
assets. -/
theorem per_batch_transactions (fs : FeatStore) (rs : RiskStore)
    (df : PriceSeries) (b : Bool) :
    process_asset_writes fs rs df b =
      ((upsert_technical_features fs df).1,
        if b then rs else (upsert_risk_events rs df).1) := by
  cases b <;> rfl

/-- C10: `upsert_risk_events` invokes `build_risk_events` with no threshold
argument, so the rows it writes and the count it returns are exactly those of
`build_risk_events df (-0.02)`; and in the driver loop a loaded non-empty
frame feeds the store through precisely that call — no other threshold is
reachable. -/
theorem risk_threshold_fixed (rs : RiskStore) (df : PriceSeries) (m : ℕ)
    (rest : List ℕ) (acc : RunResult) :
    upsert_risk_events rs df =
      ((build_risk_events df (-(2/100))).foldl (insertIfAbsent riskKey) rs,
        (build_risk_events df (-(2/100))).length) ∧
    process_metals (fun _ => some df) (m :: rest) acc =
      (if df.isEmpty then
        process_metals (fun _ => some df) rest
          { acc with skipped := acc.skipped ++ [m] }
      else
        process_metals (fun _ => some df) rest
          { feats := (upsert_technical_features acc.feats df).1
            risks := (build_risk_events df (-(2/100))).foldl
              (insertIfAbsent riskKey) acc.risks
            total_feat := acc.total_feat + (feature_batch df).length
            total_risk := acc.total_risk +
              (build_risk_events df (-(2/100))).length
            skipped := acc.skipped }) := by
  refine ⟨rfl, ?_⟩
  simp only [process_metals]
  cases df.isEmpty <;> rfl

/-- C2: every row of the persisted feature batch has every one of its fields
non-null — the `dropna` before insertion guarantees that no row with an
absent indicator is ever written to `technical_features`. -/
theorem feature_rows_complete (df : PriceSeries) (r : FeatureRow)
    (h : r ∈ feature_batch df) :
    r.daily_return ≠ Val.nan ∧ r.log_return ≠ Val.nan ∧
    r.sma_5 ≠ Val.nan ∧ r.sma_10 ≠ Val.nan ∧ r.sma_20 ≠ Val.nan ∧
    r.sma_50 ≠ Val.nan ∧ r.ema_12 ≠ Val.nan ∧ r.ema_26 ≠ Val.nan ∧
    r.bollinger_upper ≠ Val.nan ∧ r.bollinger_middle ≠ Val.nan ∧
    r.bollinger_lower ≠ Val.nan ∧ r.bollinger_width ≠ Val.nan ∧
    r.rsi_14 ≠ Val.nan ∧ r.macd ≠ Val.nan ∧ r.macd_signal ≠ Val.nan ∧
    r.macd_histogram ≠ Val.nan ∧ r.high_low_range ≠ Val.nan ∧
    r.high_low_ratio ≠ Val.nan ∧ r.volume_change ≠ Val.nan ∧
    r.volume_sma_20 ≠ Val.nan := by
  have hc := (List.mem_filter.mp h).2
  simp only [FeatureRow.complete, Bool.and_eq_true, Bool.not_eq_true',
    Val.isNan_eq_false_iff] at hc
  tauto

set_option maxRecDepth 100000 in
set_option maxHeartbeats 2000000 in
/-- Witness for C2: the one fully-computable row of `demoSeries` is in the
batch and every field of it is non-null. -/
theorem feature_rows_complete_witness :
    demoRow ∈ feature_batch demoSeries ∧
    (demoRow.daily_return ≠ Val.nan ∧ demoRow.log_return ≠ Val.nan ∧
      demoRow.sma_5 ≠ Val.nan ∧ demoRow.sma_10 ≠ Val.nan ∧
      demoRow.sma_20 ≠ Val.nan ∧ demoRow.sma_50 ≠ Val.nan ∧
      demoRow.ema_12 ≠ Val.nan ∧ demoRow.ema_26 ≠ Val.nan ∧
      demoRow.bollinger_upper ≠ Val.nan ∧ demoRow.bollinger_middle ≠ Val.nan ∧
      demoRow.bollinger_lower ≠ Val.nan ∧ demoRow.bollinger_width ≠ Val.nan ∧
      demoRow.rsi_14 ≠ Val.nan ∧ demoRow.macd ≠ Val.nan ∧
      demoRow.macd_signal ≠ Val.nan ∧ demoRow.macd_histogram ≠ Val.nan ∧
      demoRow.high_low_range ≠ Val.nan ∧ demoRow.high_low_ratio ≠ Val.nan ∧
      demoRow.volume_change ≠ Val.nan ∧ demoRow.volume_sma_20 ≠ Val.nan) := by
  have hcomp : (featureRowAt demoSeries 49).complete = true := by
    with_unfolding_all decide
  have hlen : 49 < demoSeries.length := by decide
  have hmem : demoRow ∈ feature_batch demoSeries :=
    List.mem_filter.mpr
      ⟨List.mem_map.mpr ⟨49, List.mem_range.mpr hlen, rfl⟩, hcomp⟩
  exact ⟨hmem, feature_rows_complete demoSeries demoRow hmem⟩

/-! ## Division-by-zero behavior (C5) -/

/-- C5 counterexample: a zero denominator does not propagate as an absent
value.  With volumes 0 then 5 the code's `volume.pct_change()` at index 1 —
whose previous volume is zero — is +∞, which is not NaN. -/
theorem volume_divzero_not_absent :
    (zeroVolSeries.getD 0 default).volume = some 0 ∧
    volume_change zeroVolSeries 1 = Val.inf true ∧
    (volume_change zeroVolSeries 1).isNan = false := by
  refine ⟨rfl, ?_, ?_⟩ <;> with_unfolding_all decide

/-- C5 (amended): a null denominator (and index 0) propagates as an absent
value, but a zero denominator yields an absent value only when the numerator
is also zero and otherwise an infinite value: `volume_change` is NaN at
index 0 or where the previous volume is null, and ±∞ where the previous
volume is zero and the current one nonzero; `bollinger_width` at an index
where the middle band is 0 is NaN only when the rolling deviation is also 0,
and +∞ otherwise. -/
theorem division_absent_classification (df : PriceSeries) (i : ℕ) :
    volume_change df 0 = Val.nan ∧
    (0 < i → (df.getD (i - 1) default).volume = none →
      volume_change df i = Val.nan) ∧
    (∀ v : ℚ, 0 < i → (df.getD (i - 1) default).volume = some 0 →
      (df.getD i default).volume = some v →
      volume_change df i =
        if v = 0 then Val.nan else Val.inf (decide (0 < v))) ∧
    (∀ v : ℚ, bollinger_mid (closeCol df) 20 i = Val.num 0 →
      rolling_std (closeCol df) 20 i = Val.num v →
      bollinger_width (closeCol df) 20 2 i =
        if v = 0 then Val.nan else Val.inf (decide (0 < 4 * v))) := by
  refine ⟨?_, ?_, ?_, ?_⟩
  · rcases hv : volCol df 0 with _ | s | q <;>
      simp [volume_change, pct_change, shift1, hv, Val.div, Val.sub]
  · intro hi hnone
    have hprev : volCol df (i - 1) = Val.nan := by unfold volCol; rw [hnone]
    rcases hv : volCol df i with _ | s | q <;>
      simp [volume_change, pct_change, shift1, Nat.pos_iff_ne_zero.mp hi, hv,
        hprev, Val.div, Val.sub]
  · intro v hi hprev hcur
    have hp : volCol df (i - 1) = Val.num 0 := by unfold volCol; rw [hprev]
    have hc : volCol df i = Val.num v := by unfold volCol; rw [hcur]
    by_cases hv0 : v = 0
    · subst hv0
      simp [volume_change, pct_change, shift1, Nat.pos_iff_ne_zero.mp hi, hp,
        hc, Val.div, Val.sub]
    · simp [volume_change, pct_change, shift1, Nat.pos_iff_ne_zero.mp hi, hp,
        hc, Val.div, Val.sub, hv0]
  · intro v hmid hstd
    simp only [bollinger_width, bollinger_upper, bollinger_lower, hmid, hstd]
    by_cases hv0 : v = 0
    · subst hv0
      simp [Val.mul, Val.add, Val.sub, Val.div]
    · have h4 : (0 : ℚ) + 2 * v - (0 - 2 * v) = 4 * v := by ring
      have h4ne : (4 : ℚ) * v ≠ 0 := by
        simpa using hv0
      simp [Val.mul, Val.add, Val.sub, Val.div, h4, h4ne, hv0]

/-- Witness for C5 (amended) at three small series: a null previous volume,
a zero previous volume, and a zero Bollinger middle band. -/
theorem division_absent_classification_witness :
    (0 < 1 ∧ (nullVolSeries.getD 0 default).volume = none ∧
      volume_change nullVolSeries 1 = Val.nan) ∧
    ((zeroVolSeries.getD 0 default).volume = some 0 ∧
      (zeroVolSeries.getD 1 default).volume = some 5 ∧
      volume_change zeroVolSeries 1 =
        if (5 : ℚ) = 0 then Val.nan else Val.inf (decide ((0 : ℚ) < 5))) ∧
    (bollinger_mid (closeCol zeroMidSeries) 20 19 = Val.num 0 ∧
      rolling_std (closeCol zeroMidSeries) 20 19 = Val.num (20/19) ∧
      bollinger_width (closeCol zeroMidSeries) 20 2 19 =
        if (20/19 : ℚ) = 0 then Val.nan
        else Val.inf (decide ((0 : ℚ) < 4 * (20/19)))) := by
  have h1 : (nullVolSeries.getD 0 default).volume = none := rfl
  have h2 := (division_absent_classification nullVolSeries 1).2.1
    (by norm_num) h1
  have h3 : (zeroVolSeries.getD 0 default).volume = some 0 := rfl
  have h4 : (zeroVolSeries.getD 1 default).volume = some 5 := rfl
  have h5 := (division_absent_classification zeroVolSeries 1).2.2.1 5
    (by norm_num) h3 h4
  have h6 : bollinger_mid (closeCol zeroMidSeries) 20 19 = Val.num 0 := by
    with_unfolding_all decide
  have h7 : rolling_std (closeCol zeroMidSeries) 20 19 = Val.num (20/19) := by
    with_unfolding_all decide
  have h8 := (division_absent_classification zeroMidSeries 19).2.2.2 (20/19)
    h6 h7
  exact ⟨⟨by norm_num, h1, h2⟩, ⟨h3, h4, h5⟩, ⟨h6, h7, h8⟩⟩

/-! ## Lemmas about the pipeline driver (C8) -/

theorem process_metals_core_eq (load : ℕ → Option PriceSeries)
    (l : List ℕ) :
    ∀ a b : RunResult, a.feats = b.feats → a.risks = b.risks →
      a.total_feat = b.total_feat → a.total_risk = b.total_risk →
      (process_metals load l a).feats = (process_metals load l b).feats ∧
      (process_metals load l a).risks = (process_metals load l b).risks ∧
      (process_metals load l a).total_feat =
        (process_metals load l b).total_feat ∧
      (process_metals load l a).total_risk =
        (process_metals load l b).total_risk := by
  induction l with
  | nil => intro a b h1 h2 h3 h4; exact ⟨h1, h2, h3, h4⟩
  | cons m t ih =>
    intro a b h1 h2 h3 h4
    simp only [process_metals]
    cases hm : load m with
    | none => exact ih _ _ h1 h2 h3 h4
    | some df =>
      dsimp only
      cases hE : df.isEmpty
      · exact ih _ _ (by simp only [h1]) (by simp only [h2])
          (by simp only [h1, h3]) (by simp only [h2, h4])
      · exact ih _ _ h1 h2 h3 h4

theorem process_metals_skipped_mono (load : ℕ → Option PriceSeries)
    (l : List ℕ) :
    ∀ (acc : RunResult) (x : ℕ), x ∈ acc.skipped →
      x ∈ (process_metals load l acc).skipped := by
  induction l with
  | nil => intro acc x hx; exact hx
  | cons m t ih =>
    intro acc x hx
    simp only [process_metals]
    cases hm : load m with
    | none => exact ih _ x (by simp [hx])
    | some df =>
      dsimp only
      cases hE : df.isEmpty
      · exact ih _ x hx
      · exact ih _ x (by simp [hx])

theorem driver_skip_aux (load : ℕ → Option PriceSeries) (bad : ℕ)
    (post : List ℕ) (h : load bad = none) :
    ∀ (pre : List ℕ) (acc : RunResult),
      (process_metals load (pre ++ bad :: post) acc).feats =
        (process_metals load (pre ++ post) acc).feats ∧
      (process_metals load (pre ++ bad :: post) acc).risks =
        (process_metals load (pre ++ post) acc).risks ∧
      (process_metals load (pre ++ bad :: post) acc).total_feat =
        (process_metals load (pre ++ post) acc).total_feat ∧
      (process_metals load (pre ++ bad :: post) acc).total_risk =
        (process_metals load (pre ++ post) acc).total_risk ∧
      bad ∈ (process_metals load (pre ++ bad :: post) acc).skipped := by
  intro pre
  induction pre with
  | nil =>
    intro acc
    simp only [List.nil_append, process_metals, h]
    have hc := process_metals_core_eq load post
      { acc with skipped := acc.skipped ++ [bad] } acc rfl rfl rfl rfl
    exact ⟨hc.1, hc.2.1, hc.2.2.1, hc.2.2.2,
      process_metals_skipped_mono load post _ bad (by simp)⟩
  | cons m t ih =>
    intro acc
    simp only [List.cons_append, process_metals]
    cases hm : load m with
    | none => exact ih _
    | some df =>
      dsimp only
      cases hE : df.isEmpty
      · exact ih _
      · exact ih _

/-- C8: an asset whose series fails to load (no price data) is skipped with a
warning and does not abort the run: the stores and summary totals are those
of the run without that asset, the asset is reported as skipped, and the
driver — a total function — always completes and yields its summary. -/
theorem driver_skips_missing (load : ℕ → Option PriceSeries)
    (pre post : List ℕ) (bad : ℕ) (h : load bad = none) :
    (main_run load (pre ++ bad :: post)).feats =
      (main_run load (pre ++ post)).feats ∧
    (main_run load (pre ++ bad :: post)).risks =
      (main_run load (pre ++ post)).risks ∧
    (main_run load (pre ++ bad :: post)).total_feat =
      (main_run load (pre ++ post)).total_feat ∧
    (main_run load (pre ++ bad :: post)).total_risk =
      (main_run load (pre ++ post)).total_risk ∧
    bad ∈ (main_run load (pre ++ bad :: post)).skipped :=
  driver_skip_aux load bad post h pre _

/-- Witness for C8: a loader with no data for asset 7. -/
theorem driver_skips_missing_witness :
    ((fun _ : ℕ => (none : Option PriceSeries)) 7 = none) ∧
    ((main_run (fun _ => none) ([] ++ 7 :: [])).feats =
        (main_run (fun _ => none) ([] ++ [])).feats ∧
      (main_run (fun _ => none) ([] ++ 7 :: [])).risks =
        (main_run (fun _ => none) ([] ++ [])).risks ∧
      (main_run (fun _ => none) ([] ++ 7 :: [])).total_feat =
        (main_run (fun _ => none) ([] ++ [])).total_feat ∧
      (main_run (fun _ => none) ([] ++ 7 :: [])).total_risk =
        (main_run (fun _ => none) ([] ++ [])).total_risk ∧
      7 ∈ (main_run (fun _ => none) ([] ++ 7 :: [])).skipped) :=
  ⟨rfl, driver_skips_missing (fun _ => none) [] [] 7 rfl⟩

end MetalRisk
